import Mathlib

/-!
Shallow embedding of the migration subsystem of the `ImOgg/go` repository:
the migration registry (`src/database/migrations/registry.go`) and the
migration runner (`src/database/migrate_simple.go`).

Modelling choices:
* A `Migration` carries its `version` and `description` strings.  The
  behaviour of its `Up`/`Down` SQL (success or failure) and of the fallible
  database primitives is abstracted into an oracle environment `Env`, keyed
  by version: the runner only ever branches on whether those calls returned
  an error.
* The database is modelled by its `migrations` ledger table: a list of
  `(version, description)` rows.  The `INSERT` honours the `version PRIMARY
  KEY` constraint (duplicate insert fails); `DELETE ... WHERE version = ?`
  removes every row with that version.
* Every database touch is recorded in an event trace, so that ordering
  claims ("create-if-not-exists happens before any other ledger
  operation", "no Up after the failing one") are statable.
-/

namespace MigrateSpec

/-- A migration definition: the `Version()`/`Description()` data of the Go
`Migration` interface.  Its `Up`/`Down` behaviour lives in `Env`. -/
structure Migration where
  version : String
  description : String
deriving DecidableEq, Repr

/-- Oracle environment: which fallible database calls succeed.  `upOk v` /
`downOk v` is whether the `Up` / `Down` SQL of migration `v` succeeds; the
other fields model the database primitives of the runner itself. -/
structure Env where
  connOk : Bool
  createOk : Bool
  selectOk : Bool
  lastOk : Bool
  upOk : String → Bool
  insertOk : String → Bool
  downOk : String → Bool
  deleteOk : String → Bool

/-- Database state: the rows of the `migrations` ledger table. -/
structure Db where
  ledger : List (String × String)
deriving DecidableEq, Repr

/-- The version column of the ledger. -/
def Db.versions (db : Db) : List String := db.ledger.map Prod.fst

/-- One observable database operation performed by the runner. -/
inductive Event where
  | createTable
  | selectAll
  | selectLast
  | up (version : String)
  | insert (version : String)
  | down (version : String)
  | delete (version : String)
deriving DecidableEq, Repr

/-- The Go string `<` (byte-lexicographic comparison of the version strings),
as an executable Boolean. -/
def versionLt (a b : String) : Bool := decide (a.data < b.data)

/-- The Go string `<=`, derived from `versionLt`. -/
def versionLe (a b : String) : Bool := !(versionLt b a)

/-- Membership test on ledger rows / the `executed` map (`executed[v]`). -/
def ledgerHas (rows : List (String × String)) (v : String) : Bool :=
  rows.any (fun p => p.1 == v)

/-! ### Registry (`registry.go`) -/

/-- `Register`: keyed overwrite into the version-indexed registry map. -/
def Register (reg : List Migration) (m : Migration) : List Migration :=
  if reg.any (fun x => x.version == m.version) then
    reg.map (fun x => if x.version == m.version then m else x)
  else
    reg ++ [m]

instance decRelVersionLe :
    DecidableRel (fun a b : Migration => versionLe a.version b.version = true) :=
  fun a b => inferInstanceAs (Decidable (versionLe a.version b.version = true))

/-- `All`: every registered migration, sorted by version
(`sort.Slice` with the strict `<` comparator; on the duplicate-free
registry map this is sorting by `≤`). -/
def All (reg : List Migration) : List Migration :=
  List.insertionSort (fun a b => versionLe a.version b.version = true) reg

/-- `Get`: exact-version lookup in the registry. -/
def Get (reg : List Migration) (version : String) : Option Migration :=
  reg.find? (fun x => x.version == version)

/-! ### Runner helpers (`migrate_simple.go`) -/

/-- `createMigrationsTable`: `CREATE TABLE IF NOT EXISTS migrations ...`. -/
def createMigrationsTable (env : Env) (db : Db) :
    Except String Unit × Db × List Event :=
  if env.createOk then
    (Except.ok (), db, [Event.createTable])
  else
    (Except.error "create table failed", db, [Event.createTable])

/-- `getExecutedMigrations`: `SELECT version, description FROM migrations`. -/
def getExecutedMigrations (env : Env) (db : Db) :
    Except String (List (String × String)) × Db × List Event :=
  if env.selectOk then
    (Except.ok db.ledger, db, [Event.selectAll])
  else
    (Except.error "select failed", db, [Event.selectAll])

/-- Value of `SELECT version FROM migrations ORDER BY version DESC LIMIT 1`,
with `""` for the `ErrNoRows` (empty table) case, as in the Go source. -/
def lastVersionOf : List (String × String) → String
  | [] => ""
  | p :: rest =>
    if versionLt (lastVersionOf rest) p.1 then p.1 else lastVersionOf rest

/-- `getLastMigration`: highest applied version, `""` if none. -/
def getLastMigration (env : Env) (db : Db) :
    Except String String × Db × List Event :=
  if env.lastOk then
    (Except.ok (lastVersionOf db.ledger), db, [Event.selectLast])
  else
    (Except.error "select last failed", db, [Event.selectLast])

/-- `recordMigration`: `INSERT INTO migrations (version, description)`;
fails on a duplicate of the `version` primary key. -/
def recordMigration (env : Env) (db : Db) (version description : String) :
    Except String Unit × Db × List Event :=
  if ledgerHas db.ledger version then
    (Except.error ("duplicate entry " ++ version), db, [Event.insert version])
  else if env.insertOk version then
    (Except.ok (), { ledger := db.ledger ++ [(version, description)] },
      [Event.insert version])
  else
    (Except.error ("insert failed " ++ version), db, [Event.insert version])

/-- `removeMigrationRecord`: `DELETE FROM migrations WHERE version = ?`. -/
def removeMigrationRecord (env : Env) (db : Db) (version : String) :
    Except String Unit × Db × List Event :=
  if env.deleteOk version then
    (Except.ok (), { ledger := db.ledger.filter (fun p => p.1 != version) },
      [Event.delete version])
  else
    (Except.error ("delete failed " ++ version), db, [Event.delete version])

/-! ### Runner entry points -/

/-- The `for _, m := range allMigrations` loop of `RunMigrations`: skip the
versions present in the `executed` snapshot, run `Up` then `recordMigration`
for the rest, aborting on the first error.  The returned `Bool` is the
`hasNew` flag ("already up to date" when `false`). -/
def runLoop (env : Env) (executed : List (String × String)) :
    List Migration → Db → Except String Bool × Db × List Event
  | [], db => (Except.ok false, db, [])
  | m :: rest, db =>
    if ledgerHas executed m.version then
      runLoop env executed rest db
    else
      if env.upOk m.version then
        match recordMigration env db m.version m.description with
        | (Except.ok _, db1, ev1) =>
          let next := runLoop env executed rest db1
          (next.1.map (fun _ => true), next.2.1,
            Event.up m.version :: (ev1 ++ next.2.2))
        | (Except.error e, db1, ev1) =>
          (Except.error e, db1, Event.up m.version :: ev1)
      else
        (Except.error ("migration " ++ m.version ++ " failed"), db,
          [Event.up m.version])

/-- `RunMigrations`: connect, ensure the ledger table, snapshot the applied
set, and apply every pending migration in ascending version order.
`Except.ok hasNew`: `hasNew = false` is the "already up to date" outcome. -/
def RunMigrations (env : Env) (reg : List Migration) (db : Db) :
    Except String Bool × Db × List Event :=
  if env.connOk then
    match createMigrationsTable env db with
    | (Except.ok _, db1, ev1) =>
      match getExecutedMigrations env db1 with
      | (Except.ok executed, db2, ev2) =>
        match runLoop env executed (All reg) db2 with
        | (r, db3, ev3) => (r, db3, ev1 ++ ev2 ++ ev3)
      | (Except.error e, db2, ev2) => (Except.error e, db2, ev1 ++ ev2)
    | (Except.error e, db1, ev1) => (Except.error e, db1, ev1)
  else
    (Except.error "cannot connect", db, [])

/-- `RollbackMigration`: fetch the highest applied version (no table
bootstrap in the source), treat `""` as "nothing to roll back" (`ok false`),
look the version up in the registry, run `Down`, then delete its ledger row.
`Except.ok true` means one migration was rolled back. -/
def RollbackMigration (env : Env) (reg : List Migration) (db : Db) :
    Except String Bool × Db × List Event :=
  if env.connOk then
    match getLastMigration env db with
    | (Except.ok lastVersion, db1, ev1) =>
      if lastVersion == "" then
        (Except.ok false, db1, ev1)
      else
        match Get reg lastVersion with
        | none =>
          (Except.error ("migration not found " ++ lastVersion), db1, ev1)
        | some m =>
          if env.downOk m.version then
            match removeMigrationRecord env db1 lastVersion with
            | (Except.ok _, db2, ev2) =>
              (Except.ok true, db2, ev1 ++ [Event.down m.version] ++ ev2)
            | (Except.error e, db2, ev2) =>
              (Except.error e, db2, ev1 ++ [Event.down m.version] ++ ev2)
          else
            (Except.error ("rollback " ++ m.version ++ " failed"), db1,
              ev1 ++ [Event.down m.version])
    | (Except.error e, db1, ev1) => (Except.error e, db1, ev1)
  else
    (Except.error "cannot connect", db, [])

/-- `GetMigrationStatus`: ensure the ledger table, read the applied set, and
flag each registered migration applied/pending. -/
def GetMigrationStatus (env : Env) (reg : List Migration) (db : Db) :
    Except String (List (String × Bool)) × Db × List Event :=
  if env.connOk then
    match createMigrationsTable env db with
    | (Except.ok _, db1, ev1) =>
      match getExecutedMigrations env db1 with
      | (Except.ok executed, db2, ev2) =>
        (Except.ok ((All reg).map
            (fun m => (m.version, ledgerHas executed m.version))),
          db2, ev1 ++ ev2)
      | (Except.error e, db2, ev2) => (Except.error e, db2, ev1 ++ ev2)
    | (Except.error e, db1, ev1) => (Except.error e, db1, ev1)
  else
    (Except.error "cannot connect", db, [])

/-! ### Trace predicates -/

/-- Whether an event reads or writes the `migrations` ledger table
(`Up`/`Down` run user schema SQL, not ledger operations; the create itself
is the bootstrap). -/
def Event.isLedgerOp : Event → Bool
  | Event.createTable => false
  | Event.selectAll => true
  | Event.selectLast => true
  | Event.insert _ => true
  | Event.delete _ => true
  | Event.up _ => false
  | Event.down _ => false

/-- No ledger read or write occurs before the first
`CREATE TABLE IF NOT EXISTS` in the trace. -/
def noLedgerOpBeforeCreate (evs : List Event) : Bool :=
  (evs.takeWhile (fun e => !(e == Event.createTable))).all
    (fun e => !e.isLedgerOp)

/-! ### Basic lemmas about the comparison and lookup helpers -/

theorem versionLt_iff (a b : String) : versionLt a b = true ↔ a < b := by
  rw [versionLt, decide_eq_true_iff]
  exact (String.lt_iff_toList_lt).symm

theorem versionLt_eq_false_iff (a b : String) :
    versionLt a b = false ↔ b ≤ a := by
  rw [← not_lt, ← versionLt_iff]
  cases versionLt a b <;> simp

theorem versionLe_iff (a b : String) : versionLe a b = true ↔ a ≤ b := by
  rw [versionLe]
  cases hv : versionLt b a
  · simp [(versionLt_eq_false_iff b a).mp hv]
  · simp [not_le.mpr ((versionLt_iff b a).mp hv)]

theorem list_char_not_lt_nil (l : List Char) : ¬ l < ([] : List Char) := by
  intro h
  cases h

theorem empty_string_le (s : String) : "" ≤ s := by
  by_contra h
  rw [not_le] at h
  exact list_char_not_lt_nil s.toList (String.lt_iff_toList_lt.mp h)

theorem ledgerHas_iff (rows : List (String × String)) (v : String) :
    ledgerHas rows v = true ↔ v ∈ rows.map Prod.fst := by
  rw [ledgerHas, List.any_eq_true]
  constructor
  · rintro ⟨p, hp, he⟩
    exact List.mem_map.mpr ⟨p, hp, eq_of_beq he⟩
  · intro hv
    rcases List.mem_map.mp hv with ⟨p, hp, he⟩
    exact ⟨p, hp, beq_iff_eq.mpr he⟩

theorem ledgerHas_eq_false_iff (rows : List (String × String)) (v : String) :
    ledgerHas rows v = false ↔ v ∉ rows.map Prod.fst := by
  rw [← ledgerHas_iff]
  cases ledgerHas rows v <;> simp

theorem Get_eq_some (reg : List Migration) (v : String) (m : Migration)
    (h : Get reg v = some m) : m ∈ reg ∧ m.version = v := by
  rw [Get] at h
  refine ⟨List.mem_of_find?_eq_some h, ?_⟩
  have h2 := List.find?_some h
  exact eq_of_beq h2

/-! ### Lemmas about `All` (sorted registry snapshot) -/

instance instTotalVersionLe :
    IsTotal Migration (fun a b => versionLe a.version b.version = true) :=
  ⟨fun a b => by
    rcases le_total a.version b.version with h | h
    · exact Or.inl ((versionLe_iff _ _).mpr h)
    · exact Or.inr ((versionLe_iff _ _).mpr h)⟩

instance instTransVersionLe :
    IsTrans Migration (fun a b => versionLe a.version b.version = true) :=
  ⟨fun a b c hab hbc =>
    (versionLe_iff _ _).mpr
      (le_trans ((versionLe_iff _ _).mp hab) ((versionLe_iff _ _).mp hbc))⟩

theorem All_perm (reg : List Migration) : (All reg).Perm reg :=
  List.perm_insertionSort _ reg

theorem All_mem_iff (reg : List Migration) (m : Migration) :
    m ∈ All reg ↔ m ∈ reg :=
  (All_perm reg).mem_iff

theorem All_sorted_le (reg : List Migration) :
    (All reg).Pairwise (fun a b => a.version ≤ b.version) :=
  (List.sorted_insertionSort
    (fun a b : Migration => versionLe a.version b.version = true) reg).imp
    (fun hab => (versionLe_iff _ _).mp hab)

theorem All_versions_perm (reg : List Migration) :
    ((All reg).map Migration.version).Perm (reg.map Migration.version) :=
  (All_perm reg).map Migration.version

theorem All_sorted_lt (reg : List Migration)
    (h : (reg.map Migration.version).Nodup) :
    (All reg).Pairwise (fun a b => a.version < b.version) := by
  have hnd : ((All reg).map Migration.version).Nodup :=
    ((All_versions_perm reg).nodup_iff).mpr h
  have hne : (All reg).Pairwise (fun a b => a.version ≠ b.version) :=
    (List.pairwise_map).mp hnd
  exact ((All_sorted_le reg).and hne).imp
    (fun hab => lt_of_le_of_ne hab.1 hab.2)

/-! ### Lemmas about `lastVersionOf` (the MAX-version query) -/

theorem lastVersionOf_nil : lastVersionOf [] = "" := rfl

theorem lastVersionOf_mem (rows : List (String × String)) (h : rows ≠ []) :
    lastVersionOf rows ∈ rows.map Prod.fst := by
  induction rows with
  | nil => exact absurd rfl h
  | cons p rest ih =>
    rw [lastVersionOf, List.map_cons]
    cases hlt : versionLt (lastVersionOf rest) p.1
    · rw [if_neg (by simp)]
      by_cases hr : rest = []
      · subst hr
        have h1 : p.1 ≤ lastVersionOf ([] : List (String × String)) :=
          (versionLt_eq_false_iff _ _).mp hlt
        rw [lastVersionOf_nil] at h1
        have h3 : lastVersionOf ([] : List (String × String)) = p.1 := by
          rw [lastVersionOf_nil]
          exact (le_antisymm h1 (empty_string_le p.1)).symm
        rw [h3]
        exact List.mem_cons_self _ _
      · exact List.mem_cons_of_mem _ (ih hr)
    · rw [if_pos rfl]
      exact List.mem_cons_self _ _

theorem lastVersionOf_ub (rows : List (String × String)) (v : String)
    (hv : v ∈ rows.map Prod.fst) : v ≤ lastVersionOf rows := by
  induction rows with
  | nil => simp at hv
  | cons p rest ih =>
    rw [List.map_cons, List.mem_cons] at hv
    rw [lastVersionOf]
    rcases hv with h | h
    · cases hlt : versionLt (lastVersionOf rest) p.1
      · rw [if_neg (by simp), h]
        exact (versionLt_eq_false_iff _ _).mp hlt
      · rw [if_pos rfl, h]
    · cases hlt : versionLt (lastVersionOf rest) p.1
      · rw [if_neg (by simp)]
        exact ih h
      · rw [if_pos rfl]
        exact le_of_lt (lt_of_le_of_lt (ih h) ((versionLt_iff _ _).mp hlt))

/-! ### Case-split rewrite lemmas for the runner loop -/

theorem runLoop_nil (env : Env) (ex : List (String × String)) (db : Db) :
    runLoop env ex [] db = (Except.ok false, db, []) := rfl

theorem runLoop_cons_skip (env : Env) (ex : List (String × String))
    (m : Migration) (rest : List Migration) (db : Db)
    (h : ledgerHas ex m.version = true) :
    runLoop env ex (m :: rest) db = runLoop env ex rest db := by
  rw [runLoop, if_pos h]

theorem runLoop_cons_upfail (env : Env) (ex : List (String × String))
    (m : Migration) (rest : List Migration) (db : Db)
    (h1 : ledgerHas ex m.version = false) (h2 : env.upOk m.version = false) :
    runLoop env ex (m :: rest) db =
      (Except.error ("migration " ++ m.version ++ " failed"), db,
        [Event.up m.version]) := by
  rw [runLoop, if_neg (by simp [h1]), if_neg (by simp [h2])]

theorem runLoop_cons_dup (env : Env) (ex : List (String × String))
    (m : Migration) (rest : List Migration) (db : Db)
    (h1 : ledgerHas ex m.version = false) (h2 : env.upOk m.version = true)
    (h3 : ledgerHas db.ledger m.version = true) :
    runLoop env ex (m :: rest) db =
      (Except.error ("duplicate entry " ++ m.version), db,
        [Event.up m.version, Event.insert m.version]) := by
  rw [runLoop, if_neg (by simp [h1]), if_pos h2, recordMigration, if_pos h3]

theorem runLoop_cons_insfail (env : Env) (ex : List (String × String))
    (m : Migration) (rest : List Migration) (db : Db)
    (h1 : ledgerHas ex m.version = false) (h2 : env.upOk m.version = true)
    (h3 : ledgerHas db.ledger m.version = false)
    (h4 : env.insertOk m.version = false) :
    runLoop env ex (m :: rest) db =
      (Except.error ("insert failed " ++ m.version), db,
        [Event.up m.version, Event.insert m.version]) := by
  rw [runLoop, if_neg (by simp [h1]), if_pos h2, recordMigration,
    if_neg (by simp [h3]), if_neg (by simp [h4])]

theorem runLoop_cons_ok (env : Env) (ex : List (String × String))
    (m : Migration) (rest : List Migration) (db : Db)
    (h1 : ledgerHas ex m.version = false) (h2 : env.upOk m.version = true)
    (h3 : ledgerHas db.ledger m.version = false)
    (h4 : env.insertOk m.version = true) :
    runLoop env ex (m :: rest) db =
      ((runLoop env ex rest
          { ledger := db.ledger ++ [(m.version, m.description)] }).1.map
            (fun _ => true),
        (runLoop env ex rest
          { ledger := db.ledger ++ [(m.version, m.description)] }).2.1,
        Event.up m.version :: Event.insert m.version ::
          (runLoop env ex rest
            { ledger := db.ledger ++ [(m.version, m.description)] }).2.2) := by
  rw [runLoop, if_neg (by simp [h1]), if_pos h2, recordMigration,
    if_neg (by simp [h3]), if_pos h4]
  rfl

/-! ### Trace and state lemmas for the runner loop -/

/-- Every event the loop emits is an `Up` execution or a ledger insert:
the loop never runs `Down`, deletes a ledger row, creates the table or
queries the ledger. -/
theorem runLoop_events (env : Env) (ex : List (String × String)) :
    ∀ (ms : List Migration) (db : Db) (e : Event),
      e ∈ (runLoop env ex ms db).2.2 →
      (∃ v, e = Event.up v) ∨ (∃ v, e = Event.insert v) := by
  intro ms
  induction ms with
  | nil => intro db e he; rw [runLoop_nil] at he; simp at he
  | cons m rest ih =>
    intro db e he
    cases h1 : ledgerHas ex m.version
    · cases h2 : env.upOk m.version
      · rw [runLoop_cons_upfail env ex m rest db h1 h2] at he
        simp at he
        exact Or.inl ⟨m.version, he⟩
      · cases h3 : ledgerHas db.ledger m.version
        · cases h4 : env.insertOk m.version
          · rw [runLoop_cons_insfail env ex m rest db h1 h2 h3 h4] at he
            simp at he
            rcases he with he | he
            · exact Or.inl ⟨m.version, he⟩
            · exact Or.inr ⟨m.version, he⟩
          · rw [runLoop_cons_ok env ex m rest db h1 h2 h3 h4] at he
            simp only [List.mem_cons] at he
            rcases he with he | he | he
            · exact Or.inl ⟨m.version, he⟩
            · exact Or.inr ⟨m.version, he⟩
            · exact ih _ e he
        · rw [runLoop_cons_dup env ex m rest db h1 h2 h3] at he
          simp at he
          rcases he with he | he
          · exact Or.inl ⟨m.version, he⟩
          · exact Or.inr ⟨m.version, he⟩
    · rw [runLoop_cons_skip env ex m rest db h1] at he
      exact ih _ e he

/-- If every migration in the list is already recorded in the `executed`
snapshot, the loop does nothing: `hasNew = false`, no state change, no
events. -/
theorem runLoop_all_applied (env : Env) (ex : List (String × String)) :
    ∀ (ms : List Migration) (db : Db),
      (∀ m ∈ ms, ledgerHas ex m.version = true) →
      runLoop env ex ms db = (Except.ok false, db, []) := by
  intro ms
  induction ms with
  | nil => intro db _; exact runLoop_nil env ex db
  | cons m rest ih =>
    intro db hall
    rw [runLoop_cons_skip env ex m rest db (hall m (List.mem_cons_self m rest))]
    exact ih db (fun x hx => hall x (List.mem_cons_of_mem m hx))

/-- When the loop succeeds, the final ledger versions are exactly the
initial ones plus the versions of the processed migrations that were not in
the `executed` snapshot. -/
theorem runLoop_ok_versions (env : Env) (ex : List (String × String)) :
    ∀ (ms : List Migration) (db : Db) (b : Bool) (db2 : Db)
      (evs : List Event),
      runLoop env ex ms db = (Except.ok b, db2, evs) →
      ∀ v, v ∈ db2.versions ↔
        (v ∈ db.versions ∨
          (v ∈ ms.map Migration.version ∧ ledgerHas ex v = false)) := by
  intro ms
  induction ms with
  | nil =>
    intro db b db2 evs h v
    rw [runLoop_nil] at h
    injection h with h1 h2
    injection h2 with h2 h3
    subst h2
    simp
  | cons m rest ih =>
    intro db b db2 evs h v
    cases h1 : ledgerHas ex m.version
    · cases h2 : env.upOk m.version
      · rw [runLoop_cons_upfail env ex m rest db h1 h2] at h
        injection h with hx hy
        exact Except.noConfusion hx
      · cases h3 : ledgerHas db.ledger m.version
        · cases h4 : env.insertOk m.version
          · rw [runLoop_cons_insfail env ex m rest db h1 h2 h3 h4] at h
            injection h with hx hy
            exact Except.noConfusion hx
          · rcases hrec : runLoop env ex rest
                { ledger := db.ledger ++ [(m.version, m.description)] } with
              ⟨r1, dbr, evr⟩
            rw [runLoop_cons_ok env ex m rest db h1 h2 h3 h4, hrec] at h
            simp only [Prod.mk.injEq] at h
            obtain ⟨hr, hdb, hev⟩ := h
            cases r1 with
            | error e => simp [Except.map] at hr
            | ok b1 =>
              subst hdb
              have hih := ih { ledger := db.ledger ++ [(m.version, m.description)] }
                b1 dbr evr hrec v
              rw [hih]
              simp only [Db.versions, List.map_append, List.map_cons,
                List.map_nil, List.mem_append, List.mem_cons,
                List.not_mem_nil, or_false]
              constructor
              · rintro ((hv | hv) | hv)
                · exact Or.inl hv
                · exact Or.inr ⟨Or.inl hv, by rw [hv]; exact h1⟩
                · exact Or.inr ⟨Or.inr hv.1, hv.2⟩
              · rintro (hv | ⟨hv1 | hv1, hv2⟩)
                · exact Or.inl (Or.inl hv)
                · exact Or.inl (Or.inr hv1)
                · exact Or.inr ⟨hv1, hv2⟩
        · rw [runLoop_cons_dup env ex m rest db h1 h2 h3] at h
          injection h with hx hy
          exact Except.noConfusion hx
    · rw [runLoop_cons_skip env ex m rest db h1] at h
      have hih := ih db b db2 evs h v
      rw [hih]
      simp only [List.map_cons, List.mem_cons]
      constructor
      · rintro (hv | hv)
        · exact Or.inl hv
        · exact Or.inr ⟨Or.inr hv.1, hv.2⟩
      · rintro (hv | ⟨hv1 | hv1, hv2⟩)
        · exact Or.inl hv
        · rw [hv1] at hv2
          rw [h1] at hv2
          exact Bool.noConfusion hv2
        · exact Or.inr ⟨hv1, hv2⟩

theorem ledgerHas_append (l1 l2 : List (String × String)) (v : String) :
    ledgerHas (l1 ++ l2) v = (ledgerHas l1 v || ledgerHas l2 v) := by
  simp [ledgerHas, List.any_append]

/-- Master failure lemma for the loop: on an ascending duplicate-free list
containing a pending version `N` at which either `Up` or the ledger insert
fails, while every pending version below `N` applies cleanly, the loop
aborts with an error; the `Up` of `N` is attempted, no `Up` beyond `N` runs, the
ledger gains exactly the pending versions below `N`, and `N` stays
unrecorded. -/
theorem runLoop_firstFail (env : Env) (ex : List (String × String))
    (N : String) :
    ∀ (ms : List Migration) (db : Db),
      ms.Pairwise (fun a b => a.version < b.version) →
      N ∈ ms.map Migration.version →
      ledgerHas ex N = false →
      (env.upOk N = false ∨ (env.upOk N = true ∧ env.insertOk N = false)) →
      (∀ m ∈ ms, m.version < N →
        env.upOk m.version = true ∧ env.insertOk m.version = true) →
      (∀ m ∈ ms, ledgerHas ex m.version = false →
        ledgerHas db.ledger m.version = false) →
      ∃ msg db2 evs,
        runLoop env ex ms db = (Except.error msg, db2, evs) ∧
        Event.up N ∈ evs ∧
        (∀ v, Event.up v ∈ evs → v ≤ N) ∧
        (∀ v, v ∈ db2.versions ↔
          (v ∈ db.versions ∨
            (v ∈ ms.map Migration.version ∧ v < N ∧
              ledgerHas ex v = false))) ∧
        N ∉ db2.versions := by
  intro ms
  induction ms with
  | nil => intro db _ hN; simp at hN
  | cons m rest ih =>
    intro db hsort hN hNex hfail hok hdbok
    have hrest_lt : ∀ x ∈ rest, m.version < x.version :=
      (List.pairwise_cons.mp hsort).1
    by_cases hmN : m.version = N
    · have hexm : ledgerHas ex m.version = false := by rw [hmN]; exact hNex
      have hdbm : ledgerHas db.ledger m.version = false :=
        hdbok m (List.mem_cons_self m rest) hexm
      have hNdb : N ∉ db.versions := by
        rw [hmN] at hdbm
        exact (ledgerHas_eq_false_iff _ _).mp hdbm
      have hrest_gt : ∀ x ∈ rest, N < x.version := by
        intro x hx
        rw [← hmN]
        exact hrest_lt x hx
      have hsecond :
          ∀ v, (v ∈ (m :: rest).map Migration.version ∧ v < N ∧
            ledgerHas ex v = false) → False := by
        rintro v ⟨hv1, hv2, _⟩
        rw [List.map_cons, List.mem_cons] at hv1
        rcases hv1 with hv1 | hv1
        · rw [hv1, hmN] at hv2
          exact lt_irrefl N hv2
        · rcases List.mem_map.mp hv1 with ⟨x, hx, hxv⟩
          rw [← hxv] at hv2
          exact lt_irrefl N (lt_trans (hrest_gt x hx) hv2)
      rcases hfail with hup | ⟨hup, hins⟩
      · have hupm : env.upOk m.version = false := by rw [hmN]; exact hup
        refine ⟨"migration " ++ m.version ++ " failed", db,
          [Event.up m.version], runLoop_cons_upfail env ex m rest db hexm hupm,
          ?_, ?_, ?_, hNdb⟩
        · rw [hmN]; exact List.mem_cons_self _ _
        · intro v hv
          simp at hv
          rw [hv, hmN]
        · intro v
          constructor
          · exact Or.inl
          · rintro (hv | hv)
            · exact hv
            · exact absurd hv (fun hh => hsecond v hh)
      · have hupm : env.upOk m.version = true := by rw [hmN]; exact hup
        have hinsm : env.insertOk m.version = false := by rw [hmN]; exact hins
        refine ⟨"insert failed " ++ m.version, db,
          [Event.up m.version, Event.insert m.version],
          runLoop_cons_insfail env ex m rest db hexm hupm hdbm hinsm,
          ?_, ?_, ?_, hNdb⟩
        · rw [hmN]; exact List.mem_cons_self _ _
        · intro v hv
          simp at hv
          rw [hv, hmN]
        · intro v
          constructor
          · exact Or.inl
          · rintro (hv | hv)
            · exact hv
            · exact absurd hv (fun hh => hsecond v hh)
    · have hNrest : N ∈ rest.map Migration.version := by
        rw [List.map_cons, List.mem_cons] at hN
        rcases hN with hN | hN
        · exact absurd hN.symm hmN
        · exact hN
      have hmltN : m.version < N := by
        rcases List.mem_map.mp hNrest with ⟨x, hx, hxv⟩
        rw [← hxv]
        exact hrest_lt x hx
      cases hexm : ledgerHas ex m.version
      · -- head is pending and below N: it applies cleanly
        have hdbm : ledgerHas db.ledger m.version = false :=
          hdbok m (List.mem_cons_self m rest) hexm
        obtain ⟨hupm, hinsm⟩ := hok m (List.mem_cons_self m rest) hmltN
        have hdbok2 : ∀ x ∈ rest, ledgerHas ex x.version = false →
            ledgerHas ({ ledger := db.ledger ++
              [(m.version, m.description)] : Db }).ledger x.version = false := by
          intro x hx hxex
          rw [ledgerHas_append]
          have h1 := hdbok x (List.mem_cons_of_mem m hx) hxex
          have h2 : ledgerHas [(m.version, m.description)] x.version = false := by
            rw [ledgerHas_eq_false_iff]
            intro hmem
            simp at hmem
            exact absurd hmem.symm (ne_of_lt (hrest_lt x hx))
          rw [h1, h2]
          rfl
        obtain ⟨msg, db2, evs, hrun, hupN, hub, hiff, hNdb2⟩ :=
          ih { ledger := db.ledger ++ [(m.version, m.description)] }
            (List.pairwise_cons.mp hsort).2 hNrest hNex hfail
            (fun x hx => hok x (List.mem_cons_of_mem m hx)) hdbok2
        refine ⟨msg, db2,
          Event.up m.version :: Event.insert m.version :: evs, ?_, ?_, ?_, ?_,
          hNdb2⟩
        · rw [runLoop_cons_ok env ex m rest db hexm hupm hdbm hinsm, hrun]
          simp [Except.map]
        · exact List.mem_cons_of_mem _ (List.mem_cons_of_mem _ hupN)
        · intro v hv
          rcases List.mem_cons.mp hv with hv | hv
          · injection hv with hv
            rw [hv]
            exact le_of_lt hmltN
          · rcases List.mem_cons.mp hv with hv | hv
            · exact absurd hv (by simp)
            · exact hub v hv
        · intro v
          rw [hiff v]
          simp only [Db.versions, List.map_append, List.map_cons,
            List.map_nil, List.mem_append, List.mem_cons,
            List.not_mem_nil, or_false]
          constructor
          · rintro ((hv | hv) | hv)
            · exact Or.inl hv
            · exact Or.inr ⟨Or.inl hv, by rw [hv]; exact hmltN,
                by rw [hv]; exact hexm⟩
            · exact Or.inr ⟨Or.inr hv.1, hv.2.1, hv.2.2⟩
          · rintro (hv | ⟨hv1 | hv1, hv2, hv3⟩)
            · exact Or.inl (Or.inl hv)
            · exact Or.inl (Or.inr hv1)
            · exact Or.inr ⟨hv1, hv2, hv3⟩
      · -- head already applied: skipped
        obtain ⟨msg, db2, evs, hrun, hupN, hub, hiff, hNdb2⟩ :=
          ih db (List.pairwise_cons.mp hsort).2 hNrest hNex hfail
            (fun x hx => hok x (List.mem_cons_of_mem m hx))
            (fun x hx => hdbok x (List.mem_cons_of_mem m hx))
        refine ⟨msg, db2, evs, ?_, hupN, hub, ?_, hNdb2⟩
        · rw [runLoop_cons_skip env ex m rest db hexm, hrun]
        · intro v
          rw [hiff v]
          simp only [List.map_cons, List.mem_cons]
          constructor
          · rintro (hv | hv)
            · exact Or.inl hv
            · exact Or.inr ⟨Or.inr hv.1, hv.2⟩
          · rintro (hv | ⟨hv1 | hv1, hv2, hv3⟩)
            · exact Or.inl hv
            · rw [hv1] at hv3
              rw [hexm] at hv3
              exact Bool.noConfusion hv3
            · exact Or.inr ⟨hv1, hv2, hv3⟩

/-- On a sorted list, if every version below `N` is already applied and `N`
itself is pending, the loop reaches `N` and attempts its `Up`. -/
theorem runLoop_reaches (env : Env) (ex : List (String × String))
    (N : String) :
    ∀ (ms : List Migration) (db : Db),
      ms.Pairwise (fun a b => a.version < b.version) →
      N ∈ ms.map Migration.version →
      ledgerHas ex N = false →
      (∀ m ∈ ms, m.version < N → ledgerHas ex m.version = true) →
      Event.up N ∈ (runLoop env ex ms db).2.2 := by
  intro ms
  induction ms with
  | nil => intro db _ hN; simp at hN
  | cons m rest ih =>
    intro db hsort hN hNex hbelow
    have hrest_lt := (List.pairwise_cons.mp hsort).1
    by_cases hmN : m.version = N
    · have hexm : ledgerHas ex m.version = false := by rw [hmN]; exact hNex
      cases hup : env.upOk m.version
      · rw [runLoop_cons_upfail env ex m rest db hexm hup]
        simp [hmN]
      · cases hdup : ledgerHas db.ledger m.version
        · cases hins : env.insertOk m.version
          · rw [runLoop_cons_insfail env ex m rest db hexm hup hdup hins]
            simp [hmN]
          · rw [runLoop_cons_ok env ex m rest db hexm hup hdup hins]
            simp [hmN]
        · rw [runLoop_cons_dup env ex m rest db hexm hup hdup]
          simp [hmN]
    · have hNrest : N ∈ rest.map Migration.version := by
        rw [List.map_cons, List.mem_cons] at hN
        rcases hN with hN | hN
        · exact absurd hN.symm hmN
        · exact hN
      have hmltN : m.version < N := by
        rcases List.mem_map.mp hNrest with ⟨x, hx, hxv⟩
        rw [← hxv]
        exact hrest_lt x hx
      have hexm : ledgerHas ex m.version = true :=
        hbelow m (List.mem_cons_self m rest) hmltN
      rw [runLoop_cons_skip env ex m rest db hexm]
      exact ih db (List.pairwise_cons.mp hsort).2 hNrest hNex
        (fun x hx => hbelow x (List.mem_cons_of_mem m hx))

/-! ### Registration builds a duplicate-free registry -/

theorem Register_fresh (acc : List Migration) (m : Migration)
    (h : m.version ∉ acc.map Migration.version) :
    Register acc m = acc ++ [m] := by
  rw [Register, if_neg]
  intro hany
  rw [List.any_eq_true] at hany
  rcases hany with ⟨x, hx, hxe⟩
  exact h (List.mem_map.mpr ⟨x, hx, eq_of_beq hxe⟩)

theorem foldl_Register_perm (ms : List Migration) :
    ∀ acc : List Migration,
      ((acc ++ ms).map Migration.version).Nodup →
      (ms.foldl Register acc).Perm (acc ++ ms) := by
  induction ms with
  | nil => intro acc _; simp
  | cons m rest ih =>
    intro acc hnd
    rw [List.foldl_cons]
    have hfresh : m.version ∉ acc.map Migration.version := by
      intro hmem
      rw [List.map_append, List.nodup_append] at hnd
      exact hnd.2.2 hmem (by simp)
    rw [Register_fresh acc m hfresh]
    have heq : (acc ++ [m]) ++ rest = acc ++ m :: rest := by simp
    have := ih (acc ++ [m]) (by rw [heq]; exact hnd)
    rw [heq] at this
    exact this

/-! ### Unfolding the entry points on each oracle outcome -/

theorem RunMigrations_eq (env : Env) (reg : List Migration) (db : Db)
    (hconn : env.connOk = true) (hcr : env.createOk = true)
    (hsel : env.selectOk = true) :
    RunMigrations env reg db =
      ((runLoop env db.ledger (All reg) db).1,
        (runLoop env db.ledger (All reg) db).2.1,
        Event.createTable :: Event.selectAll ::
          (runLoop env db.ledger (All reg) db).2.2) := by
  simp [RunMigrations, createMigrationsTable, getExecutedMigrations,
    hconn, hcr, hsel]

theorem GetMigrationStatus_eq (env : Env) (reg : List Migration) (db : Db)
    (hconn : env.connOk = true) (hcr : env.createOk = true)
    (hsel : env.selectOk = true) :
    GetMigrationStatus env reg db =
      (Except.ok ((All reg).map
          (fun m => (m.version, ledgerHas db.ledger m.version))),
        db, [Event.createTable, Event.selectAll]) := by
  simp [GetMigrationStatus, createMigrationsTable, getExecutedMigrations,
    hconn, hcr, hsel]

theorem Rollback_eq_noop (env : Env) (reg : List Migration) (db : Db)
    (hconn : env.connOk = true) (hlast : env.lastOk = true)
    (hv : lastVersionOf db.ledger = "") :
    RollbackMigration env reg db =
      (Except.ok false, db, [Event.selectLast]) := by
  simp [RollbackMigration, getLastMigration, hconn, hlast, hv]

theorem Rollback_eq_notfound (env : Env) (reg : List Migration) (db : Db)
    (hconn : env.connOk = true) (hlast : env.lastOk = true)
    (hv : lastVersionOf db.ledger ≠ "")
    (hget : Get reg (lastVersionOf db.ledger) = none) :
    RollbackMigration env reg db =
      (Except.error ("migration not found " ++ lastVersionOf db.ledger), db,
        [Event.selectLast]) := by
  simp [RollbackMigration, getLastMigration, hconn, hlast, hv, hget]

theorem Rollback_eq_downfail (env : Env) (reg : List Migration) (db : Db)
    (m : Migration)
    (hconn : env.connOk = true) (hlast : env.lastOk = true)
    (hv : lastVersionOf db.ledger ≠ "")
    (hget : Get reg (lastVersionOf db.ledger) = some m)
    (hdown : env.downOk m.version = false) :
    RollbackMigration env reg db =
      (Except.error ("rollback " ++ m.version ++ " failed"), db,
        [Event.selectLast, Event.down m.version]) := by
  simp [RollbackMigration, getLastMigration, hconn, hlast, hv, hget, hdown]

theorem Rollback_eq_delfail (env : Env) (reg : List Migration) (db : Db)
    (m : Migration)
    (hconn : env.connOk = true) (hlast : env.lastOk = true)
    (hv : lastVersionOf db.ledger ≠ "")
    (hget : Get reg (lastVersionOf db.ledger) = some m)
    (hdown : env.downOk m.version = true)
    (hdel : env.deleteOk (lastVersionOf db.ledger) = false) :
    RollbackMigration env reg db =
      (Except.error ("delete failed " ++ lastVersionOf db.ledger), db,
        [Event.selectLast, Event.down m.version,
          Event.delete (lastVersionOf db.ledger)]) := by
  simp [RollbackMigration, getLastMigration, removeMigrationRecord,
    hconn, hlast, hv, hget, hdown, hdel]

theorem Rollback_eq_ok (env : Env) (reg : List Migration) (db : Db)
    (m : Migration)
    (hconn : env.connOk = true) (hlast : env.lastOk = true)
    (hv : lastVersionOf db.ledger ≠ "")
    (hget : Get reg (lastVersionOf db.ledger) = some m)
    (hdown : env.downOk m.version = true)
    (hdel : env.deleteOk (lastVersionOf db.ledger) = true) :
    RollbackMigration env reg db =
      (Except.ok true,
        { ledger := db.ledger.filter
            (fun p => p.1 != lastVersionOf db.ledger) },
        [Event.selectLast, Event.down m.version,
          Event.delete (lastVersionOf db.ledger)]) := by
  simp [RollbackMigration, getLastMigration, removeMigrationRecord,
    hconn, hlast, hv, hget, hdown, hdel]

theorem Rollback_eq_connfail (env : Env) (reg : List Migration) (db : Db)
    (hconn : env.connOk = false) :
    RollbackMigration env reg db =
      (Except.error "cannot connect", db, []) := by
  simp [RollbackMigration, hconn]

theorem Rollback_eq_lastfail (env : Env) (reg : List Migration) (db : Db)
    (hconn : env.connOk = true) (hlast : env.lastOk = false) :
    RollbackMigration env reg db =
      (Except.error "select last failed", db, [Event.selectLast]) := by
  simp [RollbackMigration, getLastMigration, hconn, hlast]

theorem RunMigrations_eq_connfail (env : Env) (reg : List Migration)
    (db : Db) (hconn : env.connOk = false) :
    RunMigrations env reg db = (Except.error "cannot connect", db, []) := by
  simp [RunMigrations, hconn]

theorem RunMigrations_eq_createfail (env : Env) (reg : List Migration)
    (db : Db) (hconn : env.connOk = true) (hcr : env.createOk = false) :
    RunMigrations env reg db =
      (Except.error "create table failed", db, [Event.createTable]) := by
  simp [RunMigrations, createMigrationsTable, hconn, hcr]

theorem RunMigrations_eq_selectfail (env : Env) (reg : List Migration)
    (db : Db) (hconn : env.connOk = true) (hcr : env.createOk = true)
    (hsel : env.selectOk = false) :
    RunMigrations env reg db =
      (Except.error "select failed", db,
        [Event.createTable, Event.selectAll]) := by
  simp [RunMigrations, createMigrationsTable, getExecutedMigrations,
    hconn, hcr, hsel]

theorem GetMigrationStatus_eq_connfail (env : Env) (reg : List Migration)
    (db : Db) (hconn : env.connOk = false) :
    GetMigrationStatus env reg db =
      (Except.error "cannot connect", db, []) := by
  simp [GetMigrationStatus, hconn]

theorem GetMigrationStatus_eq_createfail (env : Env) (reg : List Migration)
    (db : Db) (hconn : env.connOk = true) (hcr : env.createOk = false) :
    GetMigrationStatus env reg db =
      (Except.error "create table failed", db, [Event.createTable]) := by
  simp [GetMigrationStatus, createMigrationsTable, hconn, hcr]

theorem GetMigrationStatus_eq_selectfail (env : Env) (reg : List Migration)
    (db : Db) (hconn : env.connOk = true) (hcr : env.createOk = true)
    (hsel : env.selectOk = false) :
    GetMigrationStatus env reg db =
      (Except.error "select failed", db,
        [Event.createTable, Event.selectAll]) := by
  simp [GetMigrationStatus, createMigrationsTable, getExecutedMigrations,
    hconn, hcr, hsel]

/-- Inversion: a successful `RunMigrations` means every oracle on the path
succeeded and the loop ran from the ledger snapshot. -/
theorem RunMigrations_ok_inv (env : Env) (reg : List Migration) (db : Db)
    (b : Bool) (db1 : Db) (evs : List Event)
    (h : RunMigrations env reg db = (Except.ok b, db1, evs)) :
    ∃ evs3, runLoop env db.ledger (All reg) db = (Except.ok b, db1, evs3) ∧
      evs = Event.createTable :: Event.selectAll :: evs3 := by
  cases hconn : env.connOk
  · rw [RunMigrations_eq_connfail env reg db hconn] at h
    injection h with hx hy
    exact Except.noConfusion hx
  · cases hcr : env.createOk
    · rw [RunMigrations_eq_createfail env reg db hconn hcr] at h
      injection h with hx hy
      exact Except.noConfusion hx
    · cases hsel : env.selectOk
      · rw [RunMigrations_eq_selectfail env reg db hconn hcr hsel] at h
        injection h with hx hy
        exact Except.noConfusion hx
      · rw [RunMigrations_eq env reg db hconn hcr hsel] at h
        rcases hrl : runLoop env db.ledger (All reg) db with ⟨r, db3, ev3⟩
        rw [hrl] at h
        simp only [Prod.mk.injEq] at h
        obtain ⟨hr, hdb, hev⟩ := h
        subst hr
        subst hdb
        exact ⟨ev3, rfl, hev.symm⟩

/-- Inversion: a rollback that reports `ok true` went down the full
success path: a nonempty maximum version was found and its row deleted. -/
theorem Rollback_ok_inv (env : Env) (reg : List Migration) (db db2 : Db)
    (evs : List Event)
    (h : RollbackMigration env reg db = (Except.ok true, db2, evs)) :
    lastVersionOf db.ledger ≠ "" ∧
    db2 = Db.mk (db.ledger.filter
      (fun p => p.1 != lastVersionOf db.ledger)) := by
  cases hconn : env.connOk
  · rw [Rollback_eq_connfail env reg db hconn] at h
    injection h with hx hy
    exact Except.noConfusion hx
  · cases hlast : env.lastOk
    · rw [Rollback_eq_lastfail env reg db hconn hlast] at h
      injection h with hx hy
      exact Except.noConfusion hx
    · by_cases hv : lastVersionOf db.ledger = ""
      · rw [Rollback_eq_noop env reg db hconn hlast hv] at h
        injection h with hx hy
        injection hx with hx
        exact Bool.noConfusion hx
      · cases hget : Get reg (lastVersionOf db.ledger) with
        | none =>
          rw [Rollback_eq_notfound env reg db hconn hlast hv hget] at h
          injection h with hx hy
          exact Except.noConfusion hx
        | some m =>
          cases hdown : env.downOk m.version
          · rw [Rollback_eq_downfail env reg db m hconn hlast hv hget
              hdown] at h
            injection h with hx hy
            exact Except.noConfusion hx
          · cases hdel : env.deleteOk (lastVersionOf db.ledger)
            · rw [Rollback_eq_delfail env reg db m hconn hlast hv hget
                hdown hdel] at h
              injection h with hx hy
              exact Except.noConfusion hx
            · rw [Rollback_eq_ok env reg db m hconn hlast hv hget
                hdown hdel] at h
              injection h with hx hy
              injection hy with hdb hev
              exact ⟨hv, hdb.symm⟩

/-! ### Deleting one version from a duplicate-free ledger -/

theorem mem_filter_versions (l : List (String × String)) (v w : String) :
    w ∈ (l.filter (fun p => p.1 != v)).map Prod.fst ↔
      (w ∈ l.map Prod.fst ∧ w ≠ v) := by
  constructor
  · intro hw
    rcases List.mem_map.mp hw with ⟨p, hp, hpw⟩
    rcases List.mem_filter.mp hp with ⟨hpl, hpv⟩
    subst hpw
    exact ⟨List.mem_map.mpr ⟨p, hpl, rfl⟩, by simpa using hpv⟩
  · rintro ⟨hw, hwv⟩
    rcases List.mem_map.mp hw with ⟨p, hp, hpw⟩
    subst hpw
    exact List.mem_map.mpr
      ⟨p, List.mem_filter.mpr ⟨hp, by simpa using hwv⟩, rfl⟩

theorem filter_remove_one (l : List (String × String)) (v : String)
    (hnd : (l.map Prod.fst).Nodup) (hv : v ∈ l.map Prod.fst) :
    (l.filter (fun p => p.1 != v)).length + 1 = l.length := by
  induction l with
  | nil => simp at hv
  | cons p rest ih =>
    rw [List.map_cons, List.mem_cons] at hv
    rw [List.map_cons, List.nodup_cons] at hnd
    rcases hv with hv | hv
    · have hp : (p.1 != v) = false := by simp [hv]
      rw [List.filter_cons, hp, if_neg (by simp)]
      have hrest : rest.filter (fun q => q.1 != v) = rest := by
        apply List.filter_eq_self.mpr
        intro x hx
        have hxv : x.1 ≠ v := by
          intro he
          apply hnd.1
          rw [← hv, ← he]
          exact List.mem_map.mpr ⟨x, hx, rfl⟩
        simpa using hxv
      rw [hrest]
      simp
    · have hpv : p.1 ≠ v := by
        intro he
        apply hnd.1
        rw [← he] at hv
        exact hv
      have hp : (p.1 != v) = true := by simpa using hpv
      rw [List.filter_cons, hp, if_pos rfl]
      have hih := ih hnd.2 hv
      simp only [List.length_cons]
      omega

/-! ### The bootstrap-ordering trace predicate -/

theorem noLedgerOpBeforeCreate_nil : noLedgerOpBeforeCreate [] = true := rfl

theorem noLedgerOpBeforeCreate_cons_create (evs : List Event) :
    noLedgerOpBeforeCreate (Event.createTable :: evs) = true := by
  simp [noLedgerOpBeforeCreate, List.takeWhile]

/-! ### Concrete fixtures for the witnesses -/

def envAllOk : Env :=
  { connOk := true, createOk := true, selectOk := true, lastOk := true,
    upOk := fun _ => true, insertOk := fun _ => true,
    downOk := fun _ => true, deleteOk := fun _ => true }

def m1 : Migration := { version := "000001", description := "create_users" }
def m2 : Migration := { version := "000002", description := "add_password" }
def m3 : Migration := { version := "000003", description := "create_posts" }

/-- Environment in which `Up` of version 000002 fails and everything else
succeeds. -/
def envUpFail2 : Env :=
  { connOk := true, createOk := true, selectOk := true, lastOk := true,
    upOk := fun v => v != "000002", insertOk := fun _ => true,
    downOk := fun _ => true, deleteOk := fun _ => true }

/-- Environment in which the ledger insert of version 000002 fails and
everything else succeeds. -/
def envInsFail2 : Env :=
  { connOk := true, createOk := true, selectOk := true, lastOk := true,
    upOk := fun _ => true, insertOk := fun v => v != "000002",
    downOk := fun _ => true, deleteOk := fun _ => true }

/-- Environment in which `Down` of version 000002 fails and everything else
succeeds. -/
def envDownFail2 : Env :=
  { connOk := true, createOk := true, selectOk := true, lastOk := true,
    upOk := fun _ => true, insertOk := fun _ => true,
    downOk := fun v => v != "000002", deleteOk := fun _ => true }

/-! ### The claims -/

/-- C3: for every set of registered migrations (duplicate-free versions)
and every order in which they were registered, `All` returns every
registered definition exactly once, sorted strictly ascending by version
string. -/
theorem C3_all_sorted_registration (ms : List Migration)
    (hnd : (ms.map Migration.version).Nodup) :
    (All (ms.foldl Register [])).Perm ms ∧
    (All (ms.foldl Register [])).Pairwise
      (fun a b => a.version < b.version) := by
  have hreg : (ms.foldl Register []).Perm ms := by
    have h := foldl_Register_perm ms [] (by simpa using hnd)
    simpa using h
  refine ⟨(All_perm _).trans hreg, ?_⟩
  apply All_sorted_lt
  exact ((hreg.map Migration.version).nodup_iff).mpr hnd

/-- C3 witness: registering versions 000003, 000001, 000002 in that order
yields them back sorted ascending, each exactly once. -/
theorem C3_witness :
    ([m3, m1, m2].map Migration.version).Nodup ∧
    ((All ([m3, m1, m2].foldl Register [])).Perm [m3, m1, m2] ∧
      (All ([m3, m1, m2].foldl Register [])).Pairwise
        (fun a b => a.version < b.version)) :=
  ⟨by decide, C3_all_sorted_registration [m3, m1, m2] (by decide)⟩

/-- C8: rollback on an empty ledger is a success no-op: it returns the
"nothing to roll back" outcome (`ok false`, distinct from both an error and
a performed rollback), runs no `Down`, deletes nothing, and leaves the
database unchanged. -/
theorem C8_rollback_empty_noop (env : Env) (reg : List Migration) (db : Db)
    (hconn : env.connOk = true) (hlast : env.lastOk = true)
    (hempty : db.ledger = []) :
    RollbackMigration env reg db =
      (Except.ok false, db, [Event.selectLast]) ∧
    (∀ v, Event.down v ∉ (RollbackMigration env reg db).2.2) ∧
    (∀ v, Event.delete v ∉ (RollbackMigration env reg db).2.2) ∧
    (RollbackMigration env reg db).2.1 = db := by
  have h : RollbackMigration env reg db =
      (Except.ok false, db, [Event.selectLast]) := by
    apply Rollback_eq_noop env reg db hconn hlast
    rw [hempty]
    rfl
  rw [h]
  refine ⟨rfl, ?_, ?_, rfl⟩
  · intro v
    simp
  · intro v
    simp

/-- C8 witness: rollback on the empty ledger with every oracle healthy. -/
theorem C8_witness :
    RollbackMigration envAllOk [m1] (Db.mk []) =
      (Except.ok false, Db.mk [], [Event.selectLast]) ∧
    (∀ v, Event.down v ∉ (RollbackMigration envAllOk [m1] (Db.mk [])).2.2) ∧
    (∀ v, Event.delete v ∉
      (RollbackMigration envAllOk [m1] (Db.mk [])).2.2) ∧
    (RollbackMigration envAllOk [m1] (Db.mk [])).2.1 = Db.mk [] :=
  C8_rollback_empty_noop envAllOk [m1] (Db.mk []) rfl rfl rfl

/-- C9: `status()` succeeds with a map keyed by exactly the registered
versions, each flagged `true` iff it is in the ledger; it does not change
the database and its only ledger operations are the create bootstrap and a
single read. -/
theorem C9_status_accuracy (env : Env) (reg : List Migration) (db : Db)
    (hconn : env.connOk = true) (hcr : env.createOk = true)
    (hsel : env.selectOk = true) :
    ∃ st, GetMigrationStatus env reg db =
        (Except.ok st, db, [Event.createTable, Event.selectAll]) ∧
      st.map Prod.fst = (All reg).map Migration.version ∧
      (∀ v, v ∈ st.map Prod.fst ↔ v ∈ reg.map Migration.version) ∧
      (∀ v b, (v, b) ∈ st → (b = true ↔ v ∈ db.versions)) := by
  have hkeys :
      ((All reg).map
        (fun m => (m.version, ledgerHas db.ledger m.version))).map Prod.fst =
      (All reg).map Migration.version := by
    rw [List.map_map]
    rfl
  refine ⟨(All reg).map (fun m => (m.version, ledgerHas db.ledger m.version)),
    GetMigrationStatus_eq env reg db hconn hcr hsel, hkeys, ?_, ?_⟩
  · intro v
    rw [hkeys]
    exact (All_versions_perm reg).mem_iff
  · intro v b hvb
    rcases List.mem_map.mp hvb with ⟨m, _, he⟩
    injection he with he1 he2
    subst he1
    subst he2
    exact ledgerHas_iff db.ledger m.version

/-- C9 witness: Registry {000001, 000002} with ledger {000001} reports
000001 applied and 000002 pending. -/
theorem C9_witness :
    ∃ st, GetMigrationStatus envAllOk [m1, m2]
        (Db.mk [("000001", "create_users")]) =
        (Except.ok st, Db.mk [("000001", "create_users")],
          [Event.createTable, Event.selectAll]) ∧
      st.map Prod.fst = (All [m1, m2]).map Migration.version ∧
      (∀ v, v ∈ st.map Prod.fst ↔ v ∈ [m1, m2].map Migration.version) ∧
      (∀ v b, (v, b) ∈ st →
        (b = true ↔ v ∈ (Db.mk [("000001", "create_users")]).versions)) :=
  C9_status_accuracy envAllOk [m1, m2]
    (Db.mk [("000001", "create_users")]) rfl rfl rfl

/-- C7 counterexample: it is not the case that every entry point performs
the create-if-not-exists before any other ledger operation — rollback on an
applied migration reads the ledger without ever creating the table. -/
theorem C7_counterexample :
    ¬ (∀ (env : Env) (reg : List Migration) (db : Db),
        noLedgerOpBeforeCreate (RunMigrations env reg db).2.2 = true ∧
        noLedgerOpBeforeCreate (RollbackMigration env reg db).2.2 = true ∧
        noLedgerOpBeforeCreate (GetMigrationStatus env reg db).2.2 = true) := by
  intro h
  have h2 := (h envAllOk [m1] (Db.mk [("000001", "create_users")])).2.1
  have h3 : noLedgerOpBeforeCreate
      (RollbackMigration envAllOk [m1]
        (Db.mk [("000001", "create_users")])).2.2 = false := by decide
  rw [h3] at h2
  exact Bool.noConfusion h2

/-- C7 amended: `migrate()` and `status()` do create the ledger table
before any other ledger read or write, but `rollback()` performs no
create-if-not-exists at all — it reads the ledger directly. -/
theorem C7_amended_bootstrap_order (env : Env) (reg : List Migration)
    (db : Db) :
    noLedgerOpBeforeCreate (RunMigrations env reg db).2.2 = true ∧
    noLedgerOpBeforeCreate (GetMigrationStatus env reg db).2.2 = true ∧
    Event.createTable ∉ (RollbackMigration env reg db).2.2 := by
  refine ⟨?_, ?_, ?_⟩
  · cases hconn : env.connOk
    · rw [RunMigrations_eq_connfail env reg db hconn]
      rfl
    · cases hcr : env.createOk
      · rw [RunMigrations_eq_createfail env reg db hconn hcr]
        exact noLedgerOpBeforeCreate_cons_create []
      · cases hsel : env.selectOk
        · rw [RunMigrations_eq_selectfail env reg db hconn hcr hsel]
          exact noLedgerOpBeforeCreate_cons_create [Event.selectAll]
        · rw [RunMigrations_eq env reg db hconn hcr hsel]
          exact noLedgerOpBeforeCreate_cons_create _
  · cases hconn : env.connOk
    · rw [GetMigrationStatus_eq_connfail env reg db hconn]
      rfl
    · cases hcr : env.createOk
      · rw [GetMigrationStatus_eq_createfail env reg db hconn hcr]
        exact noLedgerOpBeforeCreate_cons_create []
      · cases hsel : env.selectOk
        · rw [GetMigrationStatus_eq_selectfail env reg db hconn hcr hsel]
          exact noLedgerOpBeforeCreate_cons_create [Event.selectAll]
        · rw [GetMigrationStatus_eq env reg db hconn hcr hsel]
          exact noLedgerOpBeforeCreate_cons_create [Event.selectAll]
  · cases hconn : env.connOk
    · rw [Rollback_eq_connfail env reg db hconn]
      simp
    · cases hlast : env.lastOk
      · rw [Rollback_eq_lastfail env reg db hconn hlast]
        simp
      · by_cases hv : lastVersionOf db.ledger = ""
        · rw [Rollback_eq_noop env reg db hconn hlast hv]
          simp
        · cases hget : Get reg (lastVersionOf db.ledger) with
          | none =>
            rw [Rollback_eq_notfound env reg db hconn hlast hv hget]
            simp
          | some m =>
            cases hdown : env.downOk m.version
            · rw [Rollback_eq_downfail env reg db m hconn hlast hv hget
                hdown]
              simp
            · cases hdel : env.deleteOk (lastVersionOf db.ledger)
              · rw [Rollback_eq_delfail env reg db m hconn hlast hv hget
                  hdown hdel]
                simp
              · rw [Rollback_eq_ok env reg db m hconn hlast hv hget
                  hdown hdel]
                simp

/-- C5: with at least one applied version, a single rollback targets only
the maximum ledger version: only that version is rolled back (one `Down`,
one row deletion, both on the maximum), and every lower applied version
stays recorded. -/
theorem C5_rollback_targets_max (env : Env) (reg : List Migration)
    (db : Db) (m : Migration)
    (hconn : env.connOk = true) (hlast : env.lastOk = true)
    (hne : db.ledger ≠ [])
    (hvs : ∀ p ∈ db.ledger, p.1 ≠ "")
    (hget : Get reg (lastVersionOf db.ledger) = some m)
    (hdown : env.downOk m.version = true)
    (hdel : env.deleteOk (lastVersionOf db.ledger) = true) :
    RollbackMigration env reg db =
      (Except.ok true,
        Db.mk (db.ledger.filter
          (fun p => p.1 != lastVersionOf db.ledger)),
        [Event.selectLast, Event.down (lastVersionOf db.ledger),
          Event.delete (lastVersionOf db.ledger)]) ∧
    lastVersionOf db.ledger ∈ db.versions ∧
    (∀ v ∈ db.versions, v ≤ lastVersionOf db.ledger) ∧
    (∀ v, v ∈ (RollbackMigration env reg db).2.1.versions ↔
      (v ∈ db.versions ∧ v ≠ lastVersionOf db.ledger)) := by
  have hvmem : lastVersionOf db.ledger ∈ db.versions :=
    lastVersionOf_mem db.ledger hne
  have hvne : lastVersionOf db.ledger ≠ "" := by
    rcases List.mem_map.mp hvmem with ⟨p, hp, hpv⟩
    rw [← hpv]
    exact hvs p hp
  have hmv : m.version = lastVersionOf db.ledger :=
    (Get_eq_some reg _ m hget).2
  have heq : RollbackMigration env reg db =
      (Except.ok true,
        Db.mk (db.ledger.filter
          (fun p => p.1 != lastVersionOf db.ledger)),
        [Event.selectLast, Event.down (lastVersionOf db.ledger),
          Event.delete (lastVersionOf db.ledger)]) := by
    have h0 := Rollback_eq_ok env reg db m hconn hlast hvne hget hdown hdel
    rw [hmv] at h0
    exact h0
  refine ⟨heq, hvmem, fun v hv => lastVersionOf_ub db.ledger v hv, ?_⟩
  intro v
  rw [heq]
  exact mem_filter_versions db.ledger (lastVersionOf db.ledger) v

/-- C5 witness: with 000001 and 000002 both applied, one rollback removes
only 000002 and leaves 000001 applied. -/
theorem C5_witness :
    RollbackMigration envAllOk [m1, m2]
        (Db.mk [("000001", "a"), ("000002", "b")]) =
      (Except.ok true, Db.mk [("000001", "a")],
        [Event.selectLast, Event.down "000002", Event.delete "000002"]) ∧
    "000002" ∈ (Db.mk [("000001", "a"), ("000002", "b")]).versions ∧
    (∀ v ∈ (Db.mk [("000001", "a"), ("000002", "b")]).versions,
      v ≤ "000002") ∧
    (∀ v, v ∈ (RollbackMigration envAllOk [m1, m2]
        (Db.mk [("000001", "a"), ("000002", "b")])).2.1.versions ↔
      (v ∈ (Db.mk [("000001", "a"), ("000002", "b")]).versions ∧
        v ≠ "000002")) :=
  C5_rollback_targets_max envAllOk [m1, m2]
    (Db.mk [("000001", "a"), ("000002", "b")]) m2
    rfl rfl (by decide) (by decide) rfl rfl rfl

/-- C6: rollback deletes a ledger row only after its `Down` succeeded: a
ledger maximum absent from the registry yields an error before any `Down`
or ledger mutation, and a failing `Down` yields an error with the ledger
unchanged (the version still recorded). -/
theorem C6_rollback_error_paths (env : Env) (reg : List Migration)
    (db : Db) (m : Migration)
    (hconn : env.connOk = true) (hlast : env.lastOk = true)
    (hv : lastVersionOf db.ledger ≠ "") :
    (Get reg (lastVersionOf db.ledger) = none →
      RollbackMigration env reg db =
        (Except.error ("migration not found " ++ lastVersionOf db.ledger),
          db, [Event.selectLast])) ∧
    (Get reg (lastVersionOf db.ledger) = some m →
      env.downOk m.version = false →
      RollbackMigration env reg db =
        (Except.error ("rollback " ++ m.version ++ " failed"), db,
          [Event.selectLast, Event.down m.version])) :=
  ⟨fun hget => Rollback_eq_notfound env reg db hconn hlast hv hget,
   fun hget hdown =>
     Rollback_eq_downfail env reg db m hconn hlast hv hget hdown⟩

/-- C6 witness: an applied version missing from the registry makes
rollback fail without a `Down` and with the ledger intact; a failing `Down`
makes rollback fail with the ledger intact. -/
theorem C6_witness :
    RollbackMigration envAllOk [] (Db.mk [("000002", "b")]) =
      (Except.error ("migration not found " ++ "000002"),
        Db.mk [("000002", "b")], [Event.selectLast]) ∧
    RollbackMigration envDownFail2 [m1, m2]
        (Db.mk [("000001", "a"), ("000002", "b")]) =
      (Except.error ("rollback " ++ "000002" ++ " failed"),
        Db.mk [("000001", "a"), ("000002", "b")],
        [Event.selectLast, Event.down "000002"]) :=
  ⟨(C6_rollback_error_paths envAllOk [] (Db.mk [("000002", "b")]) m1
      rfl rfl (by decide)).1 rfl,
   (C6_rollback_error_paths envDownFail2 [m1, m2]
      (Db.mk [("000001", "a"), ("000002", "b")]) m2
      rfl rfl (by decide)).2 rfl rfl⟩

/-- C2: when the initial ledger versions are a subset of the registry
versions, a successful migrate() makes the ledger version set exactly the
registry version set; and a successful rollback removes exactly one ledger
entry. -/
theorem C2_runner_convergence (env envR : Env) (reg : List Migration)
    (db dbR db1 db2 : Db) (b : Bool) (evs evsR : List Event) :
    (RunMigrations env reg db = (Except.ok b, db1, evs) →
      (∀ v ∈ db.versions, v ∈ reg.map Migration.version) →
      (∀ v, v ∈ db1.versions ↔ v ∈ reg.map Migration.version)) ∧
    (RollbackMigration envR reg dbR = (Except.ok true, db2, evsR) →
      dbR.versions.Nodup →
      ∃ v, v ∈ dbR.versions ∧
        db2.ledger = dbR.ledger.filter (fun p => p.1 != v) ∧
        db2.ledger.length + 1 = dbR.ledger.length) := by
  constructor
  · intro h hsub v
    obtain ⟨evs3, hrl, _⟩ := RunMigrations_ok_inv env reg db b db1 evs h
    have hiff := runLoop_ok_versions env db.ledger (All reg) db b db1 evs3
      hrl v
    rw [hiff]
    constructor
    · rintro (hv | hv)
      · exact hsub v hv
      · exact ((All_versions_perm reg).mem_iff).mp hv.1
    · intro hv
      cases hl : ledgerHas db.ledger v
      · exact Or.inr ⟨((All_versions_perm reg).mem_iff).mpr hv, rfl⟩
      · exact Or.inl ((ledgerHas_iff db.ledger v).mp hl)
  · intro h hnd
    obtain ⟨hvne, hdb2⟩ := Rollback_ok_inv envR reg dbR db2 evsR h
    have hne : dbR.ledger ≠ [] := by
      intro he
      apply hvne
      rw [he]
      rfl
    refine ⟨lastVersionOf dbR.ledger, lastVersionOf_mem dbR.ledger hne,
      ?_, ?_⟩
    · rw [hdb2]
    · rw [hdb2]
      exact filter_remove_one dbR.ledger _ hnd
        (lastVersionOf_mem dbR.ledger hne)

/-- C2 witness: migrating registry {000001, 000002} onto an empty ledger
records exactly both versions; rolling back a two-entry ledger removes
exactly one entry. -/
theorem C2_witness :
    (∀ v, v ∈ (Db.mk [("000001", "create_users"),
        ("000002", "add_password")]).versions ↔
      v ∈ [m1, m2].map Migration.version) ∧
    (∃ v, v ∈ (Db.mk [("000001", "a"), ("000002", "b")]).versions ∧
      (Db.mk [("000001", "a")]).ledger =
        [("000001", "a"), ("000002", "b")].filter (fun p => p.1 != v) ∧
      (Db.mk [("000001", "a")]).ledger.length + 1 =
        [("000001", "a"), ("000002", "b")].length) :=
  ⟨(C2_runner_convergence envAllOk envAllOk [m1, m2] (Db.mk []) (Db.mk [])
      (Db.mk [("000001", "create_users"), ("000002", "add_password")])
      (Db.mk []) true
      [Event.createTable, Event.selectAll, Event.up "000001",
        Event.insert "000001", Event.up "000002", Event.insert "000002"]
      []).1 rfl (by decide),
   (C2_runner_convergence envAllOk envAllOk [m1, m2] (Db.mk [])
      (Db.mk [("000001", "a"), ("000002", "b")]) (Db.mk [])
      (Db.mk [("000001", "a")]) true []
      [Event.selectLast, Event.down "000002",
        Event.delete "000002"]).2 rfl (by decide)⟩

/-- C4: after a successful migrate(), an immediately repeated migrate()
with the same registry performs zero `Up` calls and zero ledger inserts,
leaves the database unchanged, and reports the "already up to date"
outcome as success (`ok false`). -/
theorem C4_second_run_noop (env env2 : Env) (reg : List Migration)
    (db db1 : Db) (b : Bool) (evs : List Event)
    (h1 : RunMigrations env reg db = (Except.ok b, db1, evs))
    (hconn : env2.connOk = true) (hcr : env2.createOk = true)
    (hsel : env2.selectOk = true) :
    RunMigrations env2 reg db1 =
      (Except.ok false, db1, [Event.createTable, Event.selectAll]) ∧
    (∀ v, Event.up v ∉ (RunMigrations env2 reg db1).2.2) ∧
    (∀ v, Event.insert v ∉ (RunMigrations env2 reg db1).2.2) := by
  obtain ⟨evs3, hrl, _⟩ := RunMigrations_ok_inv env reg db b db1 evs h1
  have hall : ∀ m ∈ All reg, ledgerHas db1.ledger m.version = true := by
    intro m hm
    rw [ledgerHas_iff]
    show m.version ∈ db1.versions
    have hiff := runLoop_ok_versions env db.ledger (All reg) db b db1 evs3
      hrl m.version
    rw [hiff]
    cases hl : ledgerHas db.ledger m.version
    · exact Or.inr ⟨List.mem_map.mpr ⟨m, hm, rfl⟩, rfl⟩
    · exact Or.inl ((ledgerHas_iff db.ledger m.version).mp hl)
  have h2 : RunMigrations env2 reg db1 =
      (Except.ok false, db1, [Event.createTable, Event.selectAll]) := by
    rw [RunMigrations_eq env2 reg db1 hconn hcr hsel]
    rw [runLoop_all_applied env2 db1.ledger (All reg) db1 hall]
  rw [h2]
  refine ⟨rfl, ?_, ?_⟩
  · intro v
    simp
  · intro v
    simp

/-- C4 witness: a second migrate() right after a successful one is a pure
read: create bootstrap plus one select, `ok false`, database unchanged. -/
theorem C4_witness :
    RunMigrations envAllOk [m1] (Db.mk [("000001", "create_users")]) =
      (Except.ok false, Db.mk [("000001", "create_users")],
        [Event.createTable, Event.selectAll]) ∧
    (∀ v, Event.up v ∉ (RunMigrations envAllOk [m1]
      (Db.mk [("000001", "create_users")])).2.2) ∧
    (∀ v, Event.insert v ∉ (RunMigrations envAllOk [m1]
      (Db.mk [("000001", "create_users")])).2.2) :=
  C4_second_run_noop envAllOk envAllOk [m1] (Db.mk [])
    (Db.mk [("000001", "create_users")]) true
    [Event.createTable, Event.selectAll, Event.up "000001",
      Event.insert "000001"] rfl rfl rfl rfl

/-- C1: if the first failing pending migration is version `N` (its `Up`
fails, every pending version below `N` applies cleanly, and everything
already applied is below `N`), migrate() aborts with an error: the `Up` of `N`
is attempted, no `Up` of any version above `N` runs, nothing is rolled
back (no `Down`, no ledger delete), and afterwards the ledger records
exactly the versions below `N` — all its versions are below `N` and `N`
itself is absent. -/
theorem C1_up_failure_containment (env : Env) (reg : List Migration)
    (db : Db) (N : String)
    (hnd : (reg.map Migration.version).Nodup)
    (hconn : env.connOk = true) (hcr : env.createOk = true)
    (hsel : env.selectOk = true)
    (hNreg : N ∈ reg.map Migration.version)
    (hNpend : ledgerHas db.ledger N = false)
    (hupN : env.upOk N = false)
    (hok : ∀ m ∈ reg, m.version < N →
      env.upOk m.version = true ∧ env.insertOk m.version = true)
    (hbelow : ∀ v ∈ db.versions, v < N) :
    ∃ msg db2 evs,
      RunMigrations env reg db = (Except.error msg, db2, evs) ∧
      Event.up N ∈ evs ∧
      (∀ v, Event.up v ∈ evs → ¬ N < v) ∧
      (∀ v, Event.down v ∉ evs ∧ Event.delete v ∉ evs) ∧
      (∀ v, v ∈ db2.versions ↔
        (v ∈ db.versions ∨ (v ∈ reg.map Migration.version ∧ v < N))) ∧
      (∀ v ∈ db2.versions, v < N) ∧ N ∉ db2.versions := by
  obtain ⟨msg, db2, evs3, hrun, hupNmem, hub, hiff, hNdb⟩ :=
    runLoop_firstFail env db.ledger N (All reg) db
      (All_sorted_lt reg hnd)
      (((All_versions_perm reg).mem_iff).mpr hNreg)
      hNpend (Or.inl hupN)
      (fun m hm => hok m ((All_mem_iff reg m).mp hm))
      (fun m _ h => h)
  refine ⟨msg, db2, Event.createTable :: Event.selectAll :: evs3,
    ?_, List.mem_cons_of_mem _ (List.mem_cons_of_mem _ hupNmem),
    ?_, ?_, ?_, ?_, hNdb⟩
  · rw [RunMigrations_eq env reg db hconn hcr hsel, hrun]
  · intro v hv
    rcases List.mem_cons.mp hv with hv | hv2
    · exact absurd hv (by simp)
    rcases List.mem_cons.mp hv2 with hv | hv3
    · exact absurd hv (by simp)
    exact not_lt.mpr (hub v hv3)
  · intro v
    refine ⟨?_, ?_⟩
    · intro hmem
      rcases List.mem_cons.mp hmem with hv | hmem2
      · exact Event.noConfusion hv
      rcases List.mem_cons.mp hmem2 with hv | hmem3
      · exact Event.noConfusion hv
      rcases runLoop_events env db.ledger (All reg) db (Event.down v)
          (by rw [hrun]; exact hmem3) with ⟨w, hw⟩ | ⟨w, hw⟩
      · exact Event.noConfusion hw
      · exact Event.noConfusion hw
    · intro hmem
      rcases List.mem_cons.mp hmem with hv | hmem2
      · exact Event.noConfusion hv
      rcases List.mem_cons.mp hmem2 with hv | hmem3
      · exact Event.noConfusion hv
      rcases runLoop_events env db.ledger (All reg) db (Event.delete v)
          (by rw [hrun]; exact hmem3) with ⟨w, hw⟩ | ⟨w, hw⟩
      · exact Event.noConfusion hw
      · exact Event.noConfusion hw
  · intro v
    rw [hiff v]
    constructor
    · rintro (hv | hv)
      · exact Or.inl hv
      · exact Or.inr ⟨((All_versions_perm reg).mem_iff).mp hv.1, hv.2.1⟩
    · rintro (hv | hv)
      · exact Or.inl hv
      · cases hl : ledgerHas db.ledger v
        · exact Or.inr
            ⟨((All_versions_perm reg).mem_iff).mpr hv.1, hv.2, rfl⟩
        · exact Or.inl ((ledgerHas_iff db.ledger v).mp hl)
  · intro v hv
    rcases (hiff v).mp hv with hv2 | hv2
    · exact hbelow v hv2
    · exact hv2.2.1

/-- C1 witness: registry {000001, 000002} on an empty ledger where `Up` of
000002 fails: migrate() errors, 000001 is recorded, 000002 is not, and no
rollback happens. -/
theorem C1_witness :
    ∃ msg db2 evs,
      RunMigrations envUpFail2 [m1, m2] (Db.mk []) =
        (Except.error msg, db2, evs) ∧
      Event.up "000002" ∈ evs ∧
      (∀ v, Event.up v ∈ evs → ¬ "000002" < v) ∧
      (∀ v, Event.down v ∉ evs ∧ Event.delete v ∉ evs) ∧
      (∀ v, v ∈ db2.versions ↔
        (v ∈ (Db.mk [] : Db).versions ∨
          (v ∈ [m1, m2].map Migration.version ∧ v < "000002"))) ∧
      (∀ v ∈ db2.versions, v < "000002") ∧ "000002" ∉ db2.versions :=
  C1_up_failure_containment envUpFail2 [m1, m2] (Db.mk []) "000002"
    (by decide) rfl rfl rfl (by decide) rfl rfl
    (by
      intro m hm hlt
      rcases List.mem_cons.mp hm with h | hm2
      · subst h
        exact ⟨rfl, rfl⟩
      · rcases List.mem_cons.mp hm2 with h | hm3
        · subst h
          exact absurd hlt (lt_irrefl _)
        · exact absurd hm3 (List.not_mem_nil m))
    (by intro v hv; exact absurd hv (List.not_mem_nil v))

/-- C10: if during migrate() the `Up` of a migration succeeds but the
subsequent ledger insert fails, migrate() returns that error immediately
with the version absent from the ledger even though its `Up` ran; a later
migrate() then attempts that `Up` again. -/
theorem C10_insert_failure_reruns_up (env env2 : Env)
    (reg : List Migration) (db : Db) (N : String)
    (hnd : (reg.map Migration.version).Nodup)
    (hconn : env.connOk = true) (hcr : env.createOk = true)
    (hsel : env.selectOk = true)
    (hNreg : N ∈ reg.map Migration.version)
    (hNpend : ledgerHas db.ledger N = false)
    (hupN : env.upOk N = true) (hinsN : env.insertOk N = false)
    (hok : ∀ m ∈ reg, m.version < N →
      env.upOk m.version = true ∧ env.insertOk m.version = true)
    (hbelow : ∀ v ∈ db.versions, v < N)
    (hconn2 : env2.connOk = true) (hcr2 : env2.createOk = true)
    (hsel2 : env2.selectOk = true) :
    ∃ msg db2 evs,
      RunMigrations env reg db = (Except.error msg, db2, evs) ∧
      Event.up N ∈ evs ∧
      N ∉ db2.versions ∧
      Event.up N ∈ (RunMigrations env2 reg db2).2.2 := by
  obtain ⟨msg, db2, evs3, hrun, hupNmem, hub, hiff, hNdb⟩ :=
    runLoop_firstFail env db.ledger N (All reg) db
      (All_sorted_lt reg hnd)
      (((All_versions_perm reg).mem_iff).mpr hNreg)
      hNpend (Or.inr ⟨hupN, hinsN⟩)
      (fun m hm => hok m ((All_mem_iff reg m).mp hm))
      (fun m _ h => h)
  refine ⟨msg, db2, Event.createTable :: Event.selectAll :: evs3, ?_,
    List.mem_cons_of_mem _ (List.mem_cons_of_mem _ hupNmem), hNdb, ?_⟩
  · rw [RunMigrations_eq env reg db hconn hcr hsel, hrun]
  · rw [RunMigrations_eq env2 reg db2 hconn2 hcr2 hsel2]
    show Event.up N ∈ Event.createTable :: Event.selectAll ::
      (runLoop env2 db2.ledger (All reg) db2).2.2
    apply List.mem_cons_of_mem
    apply List.mem_cons_of_mem
    refine runLoop_reaches env2 db2.ledger N (All reg) db2
      (All_sorted_lt reg hnd)
      (((All_versions_perm reg).mem_iff).mpr hNreg)
      ((ledgerHas_eq_false_iff db2.ledger N).mpr hNdb) ?_
    intro m hm hlt
    rw [ledgerHas_iff]
    show m.version ∈ db2.versions
    rw [hiff m.version]
    cases hl : ledgerHas db.ledger m.version
    · exact Or.inr ⟨List.mem_map.mpr ⟨m, hm, rfl⟩, hlt, rfl⟩
    · exact Or.inl ((ledgerHas_iff db.ledger m.version).mp hl)

/-- C10 witness: registry {000001, 000002} on an empty ledger where the
insert of 000002 fails: migrate() errors with 000002 unrecorded although
its `Up` ran, and the next migrate() runs `Up` of 000002 again. -/
theorem C10_witness :
    ∃ msg db2 evs,
      RunMigrations envInsFail2 [m1, m2] (Db.mk []) =
        (Except.error msg, db2, evs) ∧
      Event.up "000002" ∈ evs ∧
      "000002" ∉ db2.versions ∧
      Event.up "000002" ∈ (RunMigrations envAllOk [m1, m2] db2).2.2 :=
  C10_insert_failure_reruns_up envInsFail2 envAllOk [m1, m2] (Db.mk [])
    "000002" (by decide) rfl rfl rfl (by decide) rfl rfl rfl
    (by
      intro m hm hlt
      rcases List.mem_cons.mp hm with h | hm2
      · subst h
        exact ⟨rfl, rfl⟩
      · rcases List.mem_cons.mp hm2 with h | hm3
        · subst h
          exact absurd hlt (lt_irrefl _)
        · exact absurd hm3 (List.not_mem_nil m))
    (by intro v hv; exact absurd hv (List.not_mem_nil v))
    rfl rfl rfl

end MigrateSpec
